import Mathlib

/-!
Verification of the replicated registry (bolt-backed raft key-value store
with an LRU cache and dashboard tree handlers).

Shallow embedding conventions:
* Go byte slices (`[]byte`) and strings are both modelled as `String`;
  `len` becomes `String.length` (bytewise length agrees with the model on
  the ASCII data the registry stores).
* The cache's `uint64` size counter is a `Nat` kept below `2 ^ 64`, with
  explicit wrap-around on addition and subtraction.
* The cache's two-level `items` map (bucket → key → *list.Element) is the
  index of the recency list `evictList` by (bucket, key); the cache holds
  at most one entry per (bucket, key) pair, so lookups in the map are
  lookups in the list.  `evictList` is kept front (most recently used)
  first; the Go list's `Back()` is `getLast?`.
* The eviction callback `onEvict` is modelled by returning the list of
  entries it was invoked on.
-/

namespace Registry

/-- Byte strings of the registry (Go `[]byte` / `string`). -/
abbrev Bytes := String

/-- Modulus of Go's `uint64`. -/
def U64 : Nat := 2 ^ 64

/-- Go `uint64` addition: wraps modulo `2 ^ 64`. -/
def addU64 (a b : Nat) : Nat := (a + b) % U64

/-- Go `uint64` subtraction: wraps modulo `2 ^ 64` (underflow yields a huge value). -/
def subU64 (a b : Nat) : Nat := (a + (U64 - b % U64)) % U64

/-- A replication unit (`model.Row`): bucket, key and optional value. -/
structure Row where
  Bucket : Bytes := ""
  Key : Bytes := ""
  Value : Bytes := ""
deriving Repr, DecidableEq, Inhabited

/-! ## LRU cache (store/cache.go) -/

/-- An entry of the recency list (`entry` in cache.go). -/
structure Entry where
  bucket : Bytes
  key : Bytes
  value : Bytes
deriving Repr, DecidableEq, Inhabited

/-- `entry.Size()`: `len(e.bucket) + len(e.key) + len(e.value)`. -/
def Entry.Size (e : Entry) : Nat :=
  e.bucket.length + e.key.length + e.value.length

/-- The LRU cache (`Cache` in cache.go).  `evictList` is the recency list,
front first; `size` is the accounted byte size (`uint64`); `count` is the
Go `int` item counter; `maxSize` is the byte budget. -/
structure Cache where
  evictList : List Entry
  size : Nat
  count : Int
  maxSize : Nat
deriving Repr, DecidableEq

/-- `NewCache(maxSize, onEvict)`: empty cache with the given byte budget. -/
def NewCache (maxSize : Nat) : Cache :=
  { evictList := [], size := 0, count := 0, maxSize := maxSize }

/-- The entry test used by the `items` index: same bucket and same key. -/
def entMatches (b k : Bytes) (e : Entry) : Bool :=
  e.bucket == b && e.key == k

/-- Lookup `c.items[bucket][key]`: the unique entry of the recency list
with this bucket and key, if resident. -/
def Cache.findEntry (c : Cache) (b k : Bytes) : Option Entry :=
  c.evictList.find? (entMatches b k)

/-- Private `removeOldest`: `removeElement` on `evictList.Back()`.  Removes
the back of the recency list, decrements `size` (uint64 wrap) and `count`,
and fires the eviction callback on the removed entry. -/
def Cache.removeOldest (c : Cache) : Cache × List Entry :=
  match c.evictList.getLast? with
  | none => (c, [])
  | some e =>
      ({ c with evictList := c.evictList.dropLast,
                size := subU64 c.size e.Size,
                count := c.count - 1 }, [e])

/-- `Cache.Add(bucket, key, value) → evicted?`.  If the (bucket, key) pair
is resident the value is replaced and the entry moved to the front (no size
accounting); otherwise the new entry is pushed at the front and accounted,
and if `maxSize > 0` and the accounted size now exceeds `maxSize`, the back
entry is removed once.  Also returns the callback log. -/
def Cache.Add (c : Cache) (bucketName key value : Bytes) : Cache × Bool × List Entry :=
  match c.evictList.find? (entMatches bucketName key) with
  | some ent =>
      -- c.evictList.MoveToFront(ent); ent.Value.(*entry).value = value
      ({ c with evictList :=
          { ent with value := value } :: c.evictList.eraseP (entMatches bucketName key) },
       false, [])
  | none =>
      let ent : Entry := ⟨bucketName, key, value⟩
      let c1 : Cache := { c with evictList := ent :: c.evictList,
                                 size := addU64 c.size ent.Size,
                                 count := c.count + 1 }
      -- evict := c.maxSize > 0 && c.size > c.maxSize
      if 0 < c1.maxSize ∧ c1.maxSize < c1.size then
        let r := c1.removeOldest
        (r.1, true, r.2)
      else
        (c1, false, [])

/-- `Cache.Get(bucket, key)`: on a hit, moves the entry to the front and
returns its value. -/
def Cache.Get (c : Cache) (bucket key : Bytes) : Cache × Option Bytes :=
  match c.evictList.find? (entMatches bucket key) with
  | some ent =>
      ({ c with evictList := ent :: c.evictList.eraseP (entMatches bucket key) },
       some ent.value)
  | none => (c, none)

/-- `Cache.Peek(bucket, key)`: hit test without touching recency. -/
def Cache.Peek (c : Cache) (bucket key : Bytes) : Option Bytes :=
  (c.findEntry bucket key).map Entry.value

/-- `Cache.Contains(bucket, key)`. -/
def Cache.Contains (c : Cache) (bucket key : Bytes) : Bool :=
  (c.findEntry bucket key).isSome

/-- `Cache.Remove(bucket, key)`: if resident, `removeElement` on the entry
(erase from the list, uncount its size, fire the callback) and return true. -/
def Cache.Remove (c : Cache) (bucket key : Bytes) : Cache × Bool × List Entry :=
  match c.evictList.find? (entMatches bucket key) with
  | some ent =>
      ({ c with evictList := c.evictList.eraseP (entMatches bucket key),
                size := subU64 c.size ent.Size,
                count := c.count - 1 }, true, [ent])
  | none => (c, false, [])

/-- `Cache.RemoveBucket(bucket)`: `removeElement` on every resident entry of
the bucket, then drop the bucket from the index.  (In Go an empty per-bucket
map can linger in `items` after per-key removals, making `RemoveBucket`
return true with nothing to do; no claim depends on that return value.) -/
def Cache.RemoveBucket (c : Cache) (bucket : Bytes) : Cache × Bool × List Entry :=
  let removed := c.evictList.filter (fun e => e.bucket == bucket)
  if removed.isEmpty then (c, false, [])
  else
    ({ c with evictList := c.evictList.filter (fun e => !(e.bucket == bucket)),
              size := removed.foldl (fun s e => subU64 s e.Size) c.size,
              count := c.count - removed.length }, true, removed)

/-- Public `Cache.RemoveOldest()`: removes and returns the back entry. -/
def Cache.RemoveOldest (c : Cache) : Cache × Option Entry × List Entry :=
  match c.evictList.getLast? with
  | none => (c, none, [])
  | some e =>
      let r := c.removeOldest
      (r.1, some e, r.2)

/-- `Cache.GetOldest()`: the back entry, without mutation. -/
def Cache.GetOldest (c : Cache) : Option Entry :=
  c.evictList.getLast?

/-- `Cache.Purge()`: fires the callback on every resident entry, empties the
index and the recency list, and zeroes `count` and `size`. -/
def Cache.Purge (c : Cache) : Cache × List Entry :=
  ({ c with evictList := [], size := 0, count := 0 }, c.evictList)

/-- `Cache.Len()`: length of the recency list. -/
def Cache.Len (c : Cache) : Nat :=
  c.evictList.length

/-- A write `xs[i] = v` into a Go slice: out-of-range panics (`none`). -/
def goSliceSet (xs : List String) (i : Nat) (v : String) : Option (List String) :=
  if i < xs.length then some (xs.set i v) else none

/-- The loop of `Cache.Keys`: walks the recency list from the back,
writing `string(bucket) + "-" + string(key)` into `keys[i]` for i = 0, 1, … -/
def keysLoop : List Entry → Nat → List String → Option (List String)
  | [], _, acc => some acc
  | e :: rest, i, acc =>
      match goSliceSet acc i (e.bucket ++ "-" ++ e.key) with
      | none => none
      | some acc' => keysLoop rest (i + 1) acc'

/-- `Cache.Keys()`: starts from `var keys []string` (a slice of length 0)
and writes composite identifiers into `keys[0]`, `keys[1]`, … while walking
the recency list oldest to newest; `none` models the index-out-of-range
panic of such a write. -/
def Cache.Keys (c : Cache) : Option (List String) :=
  keysLoop c.evictList.reverse 0 []

/-- The total accounted size of the resident entries:
sum over entries of `len(bucket) + len(key) + len(value)`. -/
def Cache.sizeSum (c : Cache) : Nat :=
  (c.evictList.map Entry.Size).sum

/-! ## Dashboard and panel handlers (tree/dashboard.go)

`Tree.GetDashboard` reads the JSON blob stored for the namespace and
decodes it; `Tree.SetDashboard` encodes and writes it back.  All the
handlers below are read-modify-write on that decoded list, so they are
modelled as functions of the dashboard list that the read returned; the
claims about them are conditioned on the read succeeding.  A `.write ds`
outcome means `SetDashboard` was called with `ds`; `.fail e` means the
handler returned the error `e` without writing; `.noop` means it returned
a nil error without writing. -/

/-- A target of a panel (`model.Target`); opaque to the handlers. -/
abbrev Target := String

/-- A panel of a dashboard (`model.Panel`). -/
structure Panel where
  Title : String := ""
  GraphType : String := ""
  Targets : List Target := []
deriving Repr, DecidableEq, Inhabited

/-- A dashboard (`model.Dashboard`). -/
structure Dashboard where
  Title : String := ""
  Panels : List Panel := []
deriving Repr, DecidableEq, Inhabited

/-- Errors returned by the dashboard handlers: `common.ErrInvalidParam`,
"dashboard name or new order invalid", "dashboard new order invalid". -/
inductive DashboardErr where
  | invalidParam
  | orderLengthInvalid
  | orderInvalid
deriving Repr, DecidableEq

/-- Outcome of a dashboard handler given the dashboard list it read back. -/
inductive DashOutcome where
  | write (ds : List Dashboard)
  | fail (e : DashboardErr)
  | noop
deriving Repr, DecidableEq

/-- The loop of `invalidOrder`: `for i, index := range tmp { if i != index
{ return true } }`, with `i` starting at the given counter. -/
def enumCheck : Nat → List Nat → Bool
  | _, [] => false
  | i, x :: xs => if i ≠ x then true else enumCheck (i + 1) xs

/-- `invalidOrder(order)`: sorts a copy of `order` and reports whether the
sorted copy differs from `0, 1, …, len-1`. -/
def invalidOrder (order : List Nat) : Bool :=
  enumCheck 0 (order.mergeSort (fun a b => decide (a ≤ b)))

namespace Tree

/-- `Tree.ReorderPanel(ns, dIndex, newOrder)` after a successful read of
the namespace's dashboards: validates the dashboard index, the order
length and `invalidOrder`, then writes back the dashboards with the
`dIndex`-th panel list permuted so that position `i` holds the old panel
at position `newOrder[i]`. -/
def ReorderPanel (dashboards : List Dashboard) (dIndex : Nat)
    (newOrder : List Nat) : DashOutcome :=
  if dashboards.length = 0 ∨ dashboards.length ≤ dIndex then
    .fail .invalidParam
  else
    let pans := (dashboards.getD dIndex default).Panels
    if pans.length ≠ newOrder.length then .fail .orderLengthInvalid
    else if invalidOrder newOrder then .fail .orderInvalid
    else
      let newPanels := newOrder.map (fun o => pans.getD o default)
      .write (dashboards.set dIndex
        { dashboards.getD dIndex default with Panels := newPanels })

/-- `Tree.RemoveDashboard(ns, dIndex)` after a successful read (`err` is
nil): an out-of-range `dIndex` logs and returns the nil `err` without
writing; otherwise the dashboard is removed by `copy` and truncation. -/
def RemoveDashboard (dashboards : List Dashboard) (dIndex : Nat) : DashOutcome :=
  if dashboards.length ≤ dIndex then .noop
  else .write (dashboards.eraseIdx dIndex)

/-- `Tree.UpdateDashboard(ns, dIndex, title)` after a successful read: an
out-of-range `dIndex` returns `common.ErrInvalidParam`; otherwise the
title is updated and the list written back. -/
def UpdateDashboard (dashboards : List Dashboard) (dIndex : Nat)
    (title : String) : DashOutcome :=
  if dashboards.length ≤ dIndex then .fail .invalidParam
  else .write (dashboards.set dIndex
    { dashboards.getD dIndex default with Title := title })

end Tree

/-! ## Replicated store (store/store.go)

The store is embedded at the level of a single replica: the bolt database
is an association list of buckets, each an association list of keys to
values (bolt keeps keys sorted; bucket and key order is irrelevant to the
claims, which either take sortedness as a hypothesis or do not depend on
order).  A write method checks local leadership, encodes a tagged command
and proposes it; a committed command is applied by the FSM.  In this
single-replica embedding a proposed command is applied immediately; each
write method returns its `error` result, the replica state after the call,
and the list of commands it proposed (empty when the leadership gate or a
pre-proposal check fails). -/

/-- The contents of one bolt bucket: key → value. -/
abbrev BucketData := List (Bytes × Bytes)

/-- The bolt database: bucket name → bucket contents. -/
abbrev Db := List (Bytes × BucketData)

/-- First-match association lookup (a Go map read / bolt bucket or key
lookup). -/
def assocFind {β : Type} (l : List (Bytes × β)) (k : Bytes) : Option β :=
  match l with
  | [] => none
  | (k', v) :: rest => if k' = k then some v else assocFind rest k

/-- `bolt.Bucket.Put`: replace the value of an existing key, or append the
new key.  (Bolt keeps keys sorted; insertion position is irrelevant here.) -/
def listSet (l : BucketData) (k v : Bytes) : BucketData :=
  match l with
  | [] => [(k, v)]
  | (k', v') :: rest => if k' = k then (k, v) :: rest else (k', v') :: listSet rest k v

/-- Replace the contents of an existing bucket. -/
def dbSetBucket (db : Db) (name : Bytes) (entries : BucketData) : Db :=
  match db with
  | [] => []
  | (n, es) :: rest =>
      if n = name then (n, entries) :: rest else (n, es) :: dbSetBucket rest name entries

/-- The possible raft states of the current node. -/
inductive ClusterState where
  | Leader
  | Follower
  | Candidate
  | Shutdown
  | Unknown
deriving Repr, DecidableEq

/-- The error kinds the embedded store operations surface. -/
inductive StoreErr where
  | notLeader
  | bucketNotFound
  | noDataInBatch
  | updateArity (n : Nat)
  | deleteArity (n : Nat)
  | keyRequired
  | createBucketFail
  | removeBucketFail
  | restoreOpenFail
deriving Repr, DecidableEq

/-- `databaseSub`: bucket name for bucket management, rows for row ops. -/
structure DatabaseSub where
  name : Bytes := ""
  batch : List Row := []
deriving Repr, DecidableEq, Inhabited

/-- `sessionSub`: key and value of a session mutation. -/
structure SessionSub where
  key : String := ""
  value : String := ""
deriving Repr, DecidableEq, Inhabited

/-- The tagged-variant command written to the raft log (`command` with its
`commandType` tag and decoded payload). -/
inductive Command where
  | update (d : DatabaseSub)
  | batch (d : DatabaseSub)
  | createBucket (d : DatabaseSub)
  | removeBucket (d : DatabaseSub)
  | removeKey (d : DatabaseSub)
  | createBucketIfNotExist (d : DatabaseSub)
  | setSession (d : SessionSub)
  | delSession (d : SessionSub)
  | setPeer (peers : List (String × String))
  | restore (d : DatabaseSub)
deriving Repr, DecidableEq

/-- A replica of the store.  `fs` models the local file system restore
backups are read from (file name → database contents). -/
structure Store where
  raftState : ClusterState
  db : Db
  cache : Cache
  /-- Modelled from the spec: the session table (`LodaSession`, whose file
  is not under src/) is an in-memory map with `Get`, `Set` and `Delete`. -/
  session : List (String × String)
  /-- Modelled from the spec: cluster meta (`clusterMeta`, whose file is
  not under src/) holds the `APIPeers` map raft address → API address. -/
  meta : List (String × String)
  fs : List (String × Db) := []
deriving Repr, DecidableEq

/-- `fsm.applyUpdate`: exactly one row, bucket must exist, `Put` the row
(bolt rejects an empty key, rolling the transaction back), and remove the
key from the cache. -/
def fsmApplyUpdate (s : Store) (d : DatabaseSub) : Except StoreErr Unit × Store :=
  match d.batch with
  | [row] =>
      match assocFind s.db row.Bucket with
      | none => (.error .bucketNotFound, s)
      | some entries =>
          -- err := b.Put(key, value); f.cache.Remove(bucket, key); return err
          let cache' := (s.cache.Remove row.Bucket row.Key).1
          if row.Key = "" then (.error .keyRequired, { s with cache := cache' })
          else
            (.ok (), { s with db := dbSetBucket s.db row.Bucket (listSet entries row.Key row.Value),
                              cache := cache' })
  | rows => (.error (.updateArity rows.length), s)

/-- `fsm.applyRemoveKey`: exactly one row, bucket must exist, `Delete` the
key (bolt's delete of a missing key is a no-op) and remove it from the
cache. -/
def fsmApplyRemoveKey (s : Store) (d : DatabaseSub) : Except StoreErr Unit × Store :=
  match d.batch with
  | [row] =>
      match assocFind s.db row.Bucket with
      | none => (.error .bucketNotFound, s)
      | some entries =>
          let cache' := (s.cache.Remove row.Bucket row.Key).1
          (.ok (), { s with db := dbSetBucket s.db row.Bucket
                              (entries.filter (fun kv => kv.1 ≠ row.Key)),
                            cache := cache' })
  | rows => (.error (.deleteArity rows.length), s)

/-- The row loop of `fsm.applyBatch` inside one bolt transaction: on an
error the transaction's writes are rolled back by the caller, but the cache
removals already performed stand. -/
def batchLoop (cache : Cache) (txDb : Db) : List Row → Except StoreErr Unit × Cache × Db
  | [] => (.ok (), cache, txDb)
  | row :: rest =>
      match assocFind txDb row.Bucket with
      | none => (.error .bucketNotFound, cache, txDb)
      | some entries =>
          if row.Key = "" then (.error .keyRequired, cache, txDb)
          else
            batchLoop ((cache.Remove row.Bucket row.Key).1)
              (dbSetBucket txDb row.Bucket (listSet entries row.Key row.Value)) rest

/-- `fsm.applyBatch`: write every row under one transaction, removing each
written key from the cache; on failure the database reverts, the cache
removals do not. -/
def fsmApplyBatch (s : Store) (d : DatabaseSub) : Except StoreErr Unit × Store :=
  match batchLoop s.cache s.db d.batch with
  | (.ok _, cache', txDb) => (.ok (), { s with db := txDb, cache := cache' })
  | (.error e, cache', _) => (.error e, { s with cache := cache' })

/-- `fsm.applyCreateBucket`: evict the bucket from the cache first, then
create it; error if it already exists (or the name is empty). -/
def fsmApplyCreateBucket (s : Store) (d : DatabaseSub) : Except StoreErr Unit × Store :=
  let cache' := (s.cache.RemoveBucket d.name).1
  match assocFind s.db d.name with
  | some _ => (.error .createBucketFail, { s with cache := cache' })
  | none =>
      if d.name = "" then (.error .createBucketFail, { s with cache := cache' })
      else (.ok (), { s with cache := cache', db := s.db ++ [(d.name, [])] })

/-- `fsm.applyCreateBucketIfNotExist`: same, but creation is idempotent. -/
def fsmApplyCreateBucketIfNotExist (s : Store) (d : DatabaseSub) : Except StoreErr Unit × Store :=
  let cache' := (s.cache.RemoveBucket d.name).1
  match assocFind s.db d.name with
  | some _ => (.ok (), { s with cache := cache' })
  | none =>
      if d.name = "" then (.error .createBucketFail, { s with cache := cache' })
      else (.ok (), { s with cache := cache', db := s.db ++ [(d.name, [])] })

/-- `fsm.applyRemoveBucket`: delete the bucket (error if absent); on
success, evict the bucket from the cache. -/
def fsmApplyRemoveBucket (s : Store) (d : DatabaseSub) : Except StoreErr Unit × Store :=
  match assocFind s.db d.name with
  | none => (.error .removeBucketFail, s)
  | some _ =>
      (.ok (), { s with db := s.db.filter (fun b => b.1 ≠ d.name),
                        cache := (s.cache.RemoveBucket d.name).1 })

/-- Modelled from the spec: `LodaSession.Set` of the session table. -/
def sessionSet (session : List (String × String)) (k v : String) : List (String × String) :=
  match session with
  | [] => [(k, v)]
  | (k', v') :: rest => if k' = k then (k, v) :: rest else (k', v') :: sessionSet rest k v

/-- `fsm.applySetSession`. -/
def fsmApplySetSession (s : Store) (d : SessionSub) : Except StoreErr Unit × Store :=
  (.ok (), { s with session := sessionSet s.session d.key d.value })

/-- `fsm.applyDelSession` (modelled from the spec: `LodaSession.Delete`). -/
def fsmApplyDelSession (s : Store) (d : SessionSub) : Except StoreErr Unit × Store :=
  (.ok (), { s with session := s.session.filter (fun kv => kv.1 ≠ d.key) })

/-- `fsm.applySetPeer`: merge the submitted map into `meta.APIPeers`. -/
def fsmApplySetPeer (s : Store) (peers : List (String × String)) : Except StoreErr Unit × Store :=
  (.ok (), { s with meta := peers.foldl (fun m kv => sessionSet m kv.1 kv.2) s.meta })

/-- `fsm.applyRestore`: close the database, copy the named backup file over
it and reopen; the deferred reopen purges the cache on every path.  I/O
failures other than a missing backup file are not represented. -/
def fsmApplyRestore (s : Store) (d : DatabaseSub) : Except StoreErr Unit × Store :=
  let cache' := (s.cache.Purge).1
  match assocFind s.fs d.name with
  | none => (.error .restoreOpenFail, { s with cache := cache' })
  | some newDb => (.ok (), { s with db := newDb, cache := cache' })

/-- `fsm.Apply`: dispatch a decoded command on its tag. -/
def fsmApply (s : Store) (c : Command) : Except StoreErr Unit × Store :=
  match c with
  | .update d => fsmApplyUpdate s d
  | .batch d => fsmApplyBatch s d
  | .createBucket d => fsmApplyCreateBucket s d
  | .removeBucket d => fsmApplyRemoveBucket s d
  | .removeKey d => fsmApplyRemoveKey s d
  | .createBucketIfNotExist d => fsmApplyCreateBucketIfNotExist s d
  | .setSession d => fsmApplySetSession s d
  | .delSession d => fsmApplyDelSession s d
  | .setPeer peers => fsmApplySetPeer s peers
  | .restore d => fsmApplyRestore s d

instance {ε α : Type} [DecidableEq ε] [DecidableEq α] : DecidableEq (Except ε α) := fun
  | .ok a, .ok b =>
      if h : a = b then isTrue (by rw [h]) else isFalse (fun hh => by cases hh; exact h rfl)
  | .error e, .error e' =>
      if h : e = e' then isTrue (by rw [h]) else isFalse (fun hh => by cases hh; exact h rfl)
  | .ok _, .error _ => isFalse (fun h => by cases h)
  | .error _, .ok _ => isFalse (fun h => by cases h)

/-- Result of a store write call: the returned error, the replica state
after the call, and the commands proposed to consensus. -/
structure StoreResult where
  res : Except StoreErr Unit
  store : Store
  proposed : List Command
deriving Repr, DecidableEq

/-- Propose a command and await its FSM response (single-replica: the
command commits and is applied immediately). -/
def propose (s : Store) (c : Command) : StoreResult :=
  let r := fsmApply s c
  ⟨r.1, r.2, [c]⟩

/-- `Store.Update(bucket, key, value)`: leadership gate, then propose an
`update` command holding the single row. -/
def Store.Update (s : Store) (bucket key value : Bytes) : StoreResult :=
  if s.raftState ≠ ClusterState.Leader then ⟨.error .notLeader, s, []⟩
  else propose s (.update { batch := [{ Bucket := bucket, Key := key, Value := value }] })

/-- `Store.Batch(rows)`: leadership gate, then an emptiness check, then
propose a `batch` command. -/
def Store.Batch (s : Store) (rows : List Row) : StoreResult :=
  if s.raftState ≠ ClusterState.Leader then ⟨.error .notLeader, s, []⟩
  else if rows.length = 0 then ⟨.error .noDataInBatch, s, []⟩
  else propose s (.batch { batch := rows })

/-- `Store.CreateBucket(name)`. -/
def Store.CreateBucket (s : Store) (name : Bytes) : StoreResult :=
  if s.raftState ≠ ClusterState.Leader then ⟨.error .notLeader, s, []⟩
  else propose s (.createBucket { name := name })

/-- `Store.CreateBucketIfNotExist(name)`. -/
def Store.CreateBucketIfNotExist (s : Store) (name : Bytes) : StoreResult :=
  if s.raftState ≠ ClusterState.Leader then ⟨.error .notLeader, s, []⟩
  else propose s (.createBucketIfNotExist { name := name })

/-- `Store.RemoveKey(bucket, key)`. -/
def Store.RemoveKey (s : Store) (bucket key : Bytes) : StoreResult :=
  if s.raftState ≠ ClusterState.Leader then ⟨.error .notLeader, s, []⟩
  else propose s (.removeKey { batch := [{ Bucket := bucket, Key := key }] })

/-- `Store.RemoveBucket(name)`. -/
def Store.RemoveBucket (s : Store) (name : Bytes) : StoreResult :=
  if s.raftState ≠ ClusterState.Leader then ⟨.error .notLeader, s, []⟩
  else propose s (.removeBucket { name := name })

/-- `Store.SetSession(k, v)`. -/
def Store.SetSession (s : Store) (k v : String) : StoreResult :=
  if s.raftState ≠ ClusterState.Leader then ⟨.error .notLeader, s, []⟩
  else propose s (.setSession { key := k, value := v })

/-- `Store.DelSession(k)`. -/
def Store.DelSession (s : Store) (k : String) : StoreResult :=
  if s.raftState ≠ ClusterState.Leader then ⟨.error .notLeader, s, []⟩
  else propose s (.delSession { key := k })

/-- `Store.Restore(backupfile)`: leadership gate, then propose a `restore`
command naming the backup file. -/
def Store.Restore (s : Store) (backupfile : String) : StoreResult :=
  if s.raftState ≠ ClusterState.Leader then ⟨.error .notLeader, s, []⟩
  else propose s (.restore { name := backupfile })

/-- Bytewise lexicographic order on byte strings (`bytes.Compare < 0`),
the order bolt keeps its keys in. -/
def bytesLt : List Char → List Char → Bool
  | [], [] => false
  | [], _ :: _ => true
  | _ :: _, [] => false
  | a :: as, b :: bs => if a < b then true else if b < a then false else bytesLt as bs

/-- Bytewise `<` on the modelled byte strings. -/
def strLtB (a b : Bytes) : Bool := bytesLt a.data b.data

/-- `strings.HasPrefix(s, pfx)`: bytewise prefix test. -/
def strHasPfx (pfx s : Bytes) : Bool := pfx.data.isPrefixOf s.data

/-- The cursor walk of `Store.ViewPrefix`: from the seek position, keep
going while the key is non-empty (`len(k) != 0`) and starts with the
prefix, collecting the pairs whose value is non-empty (`len(v) != 0`). -/
def scanLoop (keyPfx : Bytes) : BucketData → List (String × String)
  | [] => []
  | (k, v) :: rest =>
      if k.length != 0 && strHasPfx keyPfx k then
        if v.length != 0 then (k, v) :: scanLoop keyPfx rest
        else scanLoop keyPfx rest
      else []

/-- `Store.ViewPrefix(bucket, keyPrefix)`: open a transaction, error if the
bucket is missing, seek the cursor to the first key not below the prefix
(bolt keys are sorted) and accumulate while keys match the prefix,
skipping empty values. -/
def Store.ViewPrefix (s : Store) (bucket keyPfx : Bytes) : Except StoreErr (List (String × String)) :=
  match assocFind s.db bucket with
  | none => .error .bucketNotFound
  | some entries =>
      .ok (scanLoop keyPfx (entries.dropWhile (fun kv => strLtB kv.1 keyPfx)))

/-! ## Concrete replicas and caches used to instantiate the theorems -/

/-- A cache holding one entry: `NewCache(100)` after `Add("b","k","v")`. -/
def sampleCache : Cache := ((NewCache 100).Add "b" "k" "v").1

/-- `NewCache(7)` after `Add("b","k1","v1")` (5 accounted bytes) and
`Add("b","k2","vvvvvvvvvv")` (13 accounted bytes, one eviction). -/
def overflowCache : Cache :=
  (((NewCache 7).Add "b" "k1" "v1").1.Add "b" "k2" "vvvvvvvvvv").1

/-- A follower replica with one bucket, one cached entry and a session. -/
def followerStore : Store :=
  { raftState := .Follower,
    db := [("b", [("k", "v")])],
    cache := sampleCache,
    session := [("sid", "user")],
    meta := [("r1", "a1")] }

/-- A leader replica with one bucket. -/
def leaderStore : Store :=
  { raftState := .Leader,
    db := [("b", [("k", "v")])],
    cache := NewCache 100,
    session := [],
    meta := [] }

/-- One dashboard holding two panels. -/
def sampleDashboards : List Dashboard :=
  [{ Title := "d", Panels := [{ Title := "p0" }, { Title := "p1" }] }]

/-- A replica whose bucket "b" stores the key "k" with an empty value. -/
def emptyValStore : Store :=
  { raftState := .Leader,
    db := [("b", [("k", "")])],
    cache := NewCache 0,
    session := [],
    meta := [] }

/-! ## Theorems -/

/-- C10: removing a (bucket, key) pair that is not resident returns false,
invokes no eviction callback, and leaves the cache (recency list, accounted
size, entry count, every entry) unchanged. -/
theorem claim10_remove_absent (c : Cache) (b k : Bytes)
    (h : c.findEntry b k = none) :
    c.Remove b k = (c, false, []) := by
  have h' : c.evictList.find? (entMatches b k) = none := h
  simp [Cache.Remove, h']

theorem claim10_witness :
    sampleCache.Remove "b" "nothere" = (sampleCache, false, []) :=
  claim10_remove_absent sampleCache "b" "nothere" (by decide)

/-- C9: after a successful read of the dashboard list, `RemoveDashboard`
with an out-of-range index returns the nil read error and writes nothing
(a silent no-op), while `UpdateDashboard` with the same index returns
`ErrInvalidParam`. -/
theorem claim9_remove_noop_update_fails (dashboards : List Dashboard)
    (dIndex : Nat) (title : String) (h : dashboards.length ≤ dIndex) :
    Tree.RemoveDashboard dashboards dIndex = DashOutcome.noop ∧
    Tree.UpdateDashboard dashboards dIndex title
      = DashOutcome.fail DashboardErr.invalidParam := by
  constructor <;> simp [Tree.RemoveDashboard, Tree.UpdateDashboard, h]

theorem claim9_witness :
    Tree.RemoveDashboard [{ Title := "d" }] 3 = DashOutcome.noop ∧
    Tree.UpdateDashboard [{ Title := "d" }] 3 "t"
      = DashOutcome.fail DashboardErr.invalidParam :=
  claim9_remove_noop_update_fails [{ Title := "d" }] 3 "t" (by decide)

/-- C7: `Batch` with an empty row list returns an error on every node (the
leadership error on a non-leader, the no-data error on the leader), leaves
the replica unchanged, and proposes no command. -/
theorem claim7_empty_batch (s : Store) :
    (s.Batch []).store = s ∧ (s.Batch []).proposed = [] ∧
    ∃ e, (s.Batch []).res = Except.error e := by
  by_cases h : s.raftState = ClusterState.Leader
  · exact ⟨by simp [Store.Batch, h], by simp [Store.Batch, h],
      StoreErr.noDataInBatch, by simp [Store.Batch, h]⟩
  · exact ⟨by simp [Store.Batch, h], by simp [Store.Batch, h],
      StoreErr.notLeader, by simp [Store.Batch, h]⟩

/-- C5: `Keys()` on a non-empty cache writes `keys[0]` into a slice of
length 0 and panics with an index out of range (`none`), instead of
returning the composite identifiers; shown here on a one-entry cache. -/
theorem claim5_keys_panics :
    sampleCache.Len = 1 ∧ sampleCache.Keys = none := by decide

/-- C2: every write method called on a replica whose local raft state is
not Leader returns the NotLeader error, proposes no command, and leaves
the whole replica (database, cache, session table, meta) unchanged. -/
theorem claim2_nonleader_writes (s : Store)
    (h : s.raftState ≠ ClusterState.Leader) :
    (∀ b k v, s.Update b k v = ⟨.error .notLeader, s, []⟩) ∧
    (∀ rows, s.Batch rows = ⟨.error .notLeader, s, []⟩) ∧
    (∀ n, s.CreateBucket n = ⟨.error .notLeader, s, []⟩) ∧
    (∀ n, s.CreateBucketIfNotExist n = ⟨.error .notLeader, s, []⟩) ∧
    (∀ b k, s.RemoveKey b k = ⟨.error .notLeader, s, []⟩) ∧
    (∀ n, s.RemoveBucket n = ⟨.error .notLeader, s, []⟩) ∧
    (∀ k v, s.SetSession k v = ⟨.error .notLeader, s, []⟩) ∧
    (∀ k, s.DelSession k = ⟨.error .notLeader, s, []⟩) ∧
    (∀ f, s.Restore f = ⟨.error .notLeader, s, []⟩) := by
  refine ⟨fun b k v => ?_, fun rows => ?_, fun n => ?_, fun n => ?_,
    fun b k => ?_, fun n => ?_, fun k v => ?_, fun k => ?_, fun f => ?_⟩ <;>
    simp [Store.Update, Store.Batch, Store.CreateBucket,
      Store.CreateBucketIfNotExist, Store.RemoveKey, Store.RemoveBucket,
      Store.SetSession, Store.DelSession, Store.Restore, h]

theorem claim2_witness :
    followerStore.Update "b" "k" "v2" = ⟨.error .notLeader, followerStore, []⟩ ∧
    followerStore.Batch [{ Bucket := "b", Key := "k", Value := "v2" }]
      = ⟨.error .notLeader, followerStore, []⟩ ∧
    followerStore.CreateBucket "nb" = ⟨.error .notLeader, followerStore, []⟩ ∧
    followerStore.CreateBucketIfNotExist "nb" = ⟨.error .notLeader, followerStore, []⟩ ∧
    followerStore.RemoveKey "b" "k" = ⟨.error .notLeader, followerStore, []⟩ ∧
    followerStore.RemoveBucket "b" = ⟨.error .notLeader, followerStore, []⟩ ∧
    followerStore.SetSession "sid" "other" = ⟨.error .notLeader, followerStore, []⟩ ∧
    followerStore.DelSession "sid" = ⟨.error .notLeader, followerStore, []⟩ ∧
    followerStore.Restore "backup" = ⟨.error .notLeader, followerStore, []⟩ := by
  obtain ⟨h1, h2, h3, h4, h5, h6, h7, h8, h9⟩ :=
    claim2_nonleader_writes followerStore (by decide)
  exact ⟨h1 _ _ _, h2 _, h3 _, h4 _, h5 _ _, h6 _, h7 _ _, h8 _, h9 _⟩

theorem sizeSum_sublist {l₁ l₂ : List Entry} (h : l₁.Sublist l₂) :
    (l₁.map Entry.Size).sum ≤ (l₂.map Entry.Size).sum :=
  List.Sublist.sum_le_sum (h.map Entry.Size) (fun a _ => Nat.zero_le a)

theorem sum_of_find?_eraseP (l : List Entry) (p : Entry → Bool) (e : Entry)
    (h : l.find? p = some e) :
    (l.map Entry.Size).sum = e.Size + ((l.eraseP p).map Entry.Size).sum := by
  induction l with
  | nil => simp at h
  | cons a rest ih =>
    by_cases hp : p a
    · rw [List.find?_cons_of_pos _ hp] at h
      have ha : a = e := by simpa using h
      subst ha
      simp [List.eraseP_cons_of_pos hp]
    · rw [List.find?_cons_of_neg _ hp] at h
      simp only [List.eraseP_cons_of_neg hp, List.map_cons, List.sum_cons, ih h]
      omega

theorem entMatches_of_find? {l : List Entry} {b k : Bytes} {e : Entry}
    (h : l.find? (entMatches b k) = some e) : e.bucket = b ∧ e.key = k := by
  have := List.find?_some h
  simpa [entMatches] using this

theorem removeOldest_sizeSum (c : Cache) : ((c.removeOldest).1).sizeSum ≤ c.sizeSum := by
  unfold Cache.removeOldest
  split
  · exact Nat.le_refl _
  · simp only [Cache.sizeSum]
    exact sizeSum_sublist (List.dropLast_sublist _)

/-- C1 (amended): the removal methods never increase the total accounted
size (`Purge` zeroes it, `Get` preserves it), and `Add` increases it by at
most the size of the added entry; but `Add` evicts at most one entry per
call, so the total accounted size is NOT bounded by `MaxBytes` when a
mutating method returns (see the counterexample). -/
theorem claim1_amended (c : Cache) (b k v : Bytes) :
    ((c.Remove b k).1).sizeSum ≤ c.sizeSum ∧
    ((c.RemoveBucket b).1).sizeSum ≤ c.sizeSum ∧
    ((c.RemoveOldest).1).sizeSum ≤ c.sizeSum ∧
    ((c.Purge).1).sizeSum = 0 ∧
    ((c.Get b k).1).sizeSum = c.sizeSum ∧
    ((c.Add b k v).1).sizeSum ≤ c.sizeSum + Entry.Size ⟨b, k, v⟩ := by
  refine ⟨?_, ?_, ?_, ?_, ?_, ?_⟩
  · cases hf : c.evictList.find? (entMatches b k) with
    | none => simp [Cache.Remove, hf]
    | some e =>
        simp only [Cache.Remove, hf, Cache.sizeSum]
        exact sizeSum_sublist (List.eraseP_sublist _)
  · by_cases hb : (c.evictList.filter (fun e => e.bucket == b)).isEmpty
    · simp [Cache.RemoveBucket, hb]
    · simp only [Cache.RemoveBucket, hb, if_false, Bool.false_eq_true, Cache.sizeSum]
      exact sizeSum_sublist (List.filter_sublist _)
  · unfold Cache.RemoveOldest
    split
    · exact Nat.le_refl _
    · exact removeOldest_sizeSum c
  · simp [Cache.Purge, Cache.sizeSum]
  · cases hf : c.evictList.find? (entMatches b k) with
    | none => simp [Cache.Get, hf]
    | some e =>
        simp only [Cache.Get, hf, Cache.sizeSum, List.map_cons, List.sum_cons]
        rw [sum_of_find?_eraseP _ _ _ hf]
  · cases hf : c.evictList.find? (entMatches b k) with
    | some e =>
        obtain ⟨hbk, hkk⟩ := entMatches_of_find? hf
        simp only [Cache.Add, hf, Cache.sizeSum, List.map_cons, List.sum_cons]
        have h1 : ({ e with value := v } : Entry).Size = Entry.Size ⟨b, k, v⟩ := by
          simp [Entry.Size, hbk, hkk]
        have h2 := sizeSum_sublist
          (List.eraseP_sublist (p := entMatches b k) c.evictList)
        rw [h1]
        omega
    | none =>
        by_cases he : 0 < c.maxSize ∧ c.maxSize < addU64 c.size (Entry.Size ⟨b, k, v⟩)
        · simp only [Cache.Add, hf, he, and_self, if_true]
          have h3 := removeOldest_sizeSum
            { c with evictList := ⟨b, k, v⟩ :: c.evictList,
                     size := addU64 c.size (Entry.Size ⟨b, k, v⟩),
                     count := c.count + 1 }
          simp only [Cache.sizeSum, List.map_cons, List.sum_cons] at h3 ⊢
          omega
        · simp only [Cache.Add, hf, he, if_false, Cache.sizeSum, List.map_cons,
            List.sum_cons]
          omega

/-- C1 (counterexample): with `MaxBytes = 7`, `Add("b","k1","v1")` then
`Add("b","k2","vvvvvvvvvv")` evicts only once and returns with a total
accounted size of 13 > 7. -/
theorem claim1_counterexample :
    0 < overflowCache.maxSize ∧ overflowCache.maxSize < overflowCache.sizeSum := by
  decide

theorem strLtB_empty (s : String) : strLtB s "" = false := by
  cases s with
  | mk data => cases data <;> rfl

theorem length_ne_zero_of_ne_empty {s : String} (h : s ≠ "") : s.length ≠ 0 := by
  intro h0
  apply h
  cases s with
  | mk data =>
      cases List.length_eq_zero.mp h0
      rfl

theorem strHasPfx_empty (s : String) : strHasPfx "" s = true := by
  unfold strHasPfx
  rw [show ("" : String).data = [] from rfl]
  cases s.data <;> rfl

theorem scanLoop_empty_pfx (entries : BucketData)
    (hk : ∀ kv ∈ entries, kv.1 ≠ "") :
    scanLoop "" entries = entries.filter (fun kv => kv.2 != "") := by
  induction entries with
  | nil => rfl
  | cons kv rest ih =>
      obtain ⟨k, v⟩ := kv
      have hk1 : k ≠ "" := hk (k, v) (List.mem_cons_self _ _)
      have ihr := ih (fun kv2 hm => hk kv2 (List.mem_cons_of_mem _ hm))
      have hklen := length_ne_zero_of_ne_empty hk1
      by_cases hv : v = ""
      · subst hv
        simp [scanLoop, strHasPfx_empty, hklen, ihr, List.filter_cons]
      · have hvlen := length_ne_zero_of_ne_empty hv
        simp [scanLoop, strHasPfx_empty, hklen, hvlen, hv, ihr, List.filter_cons]

/-- C6 (amended): on an existing bucket, `ViewPrefix` with the empty prefix
returns exactly the entries of the bucket whose value is non-empty — in
particular every such entry is in the result — but entries with an empty
value are omitted (see the counterexample). -/
theorem claim6_amended (s : Store) (bucket : Bytes) (entries : BucketData)
    (hb : assocFind s.db bucket = some entries)
    (hk : ∀ kv ∈ entries, kv.1 ≠ "") :
    s.ViewPrefix bucket "" = .ok (entries.filter (fun kv => kv.2 != "")) ∧
    ∀ kv ∈ entries, kv.2 ≠ "" →
      ∃ res, s.ViewPrefix bucket "" = .ok res ∧ kv ∈ res := by
  have hdrop : entries.dropWhile (fun kv => strLtB kv.1 "") = entries := by
    cases entries with
    | nil => rfl
    | cons kv rest => simp [List.dropWhile_cons, strLtB_empty]
  have hmain : s.ViewPrefix bucket "" = .ok (entries.filter (fun kv => kv.2 != "")) := by
    simp [Store.ViewPrefix, hb, hdrop, scanLoop_empty_pfx entries hk]
  refine ⟨hmain, fun kv hm hv => ⟨_, hmain, ?_⟩⟩
  rw [List.mem_filter]
  exact ⟨hm, by simpa [bne_iff_ne] using hv⟩

theorem claim6_witness :
    leaderStore.ViewPrefix "b" "" = .ok [("k", "v")] :=
  ((claim6_amended leaderStore "b" [("k", "v")] (by decide)
    (by decide)).1).trans (by decide)

/-- C6 (counterexample): bucket "b" holds the entry ("k", ""), yet
`ViewPrefix("b", "")` returns a mapping without it: the scan skips entries
whose stored value has length 0. -/
theorem claim6_counterexample :
    assocFind emptyValStore.db "b" = some [("k", "")] ∧
    emptyValStore.ViewPrefix "b" "" = .ok [] := by decide

theorem assocFind_listSet (l : BucketData) (k v : Bytes) :
    assocFind (listSet l k v) k = some v := by
  induction l with
  | nil => simp [listSet, assocFind]
  | cons kv rest ih =>
      obtain ⟨k', v'⟩ := kv
      by_cases h : k' = k
      · subst h; simp [listSet, assocFind]
      · simp [listSet, assocFind, h, ih]

theorem assocFind_filter_ne (l : BucketData) (k : Bytes) :
    assocFind (l.filter (fun kv => kv.1 ≠ k)) k = none := by
  induction l with
  | nil => rfl
  | cons kv rest ih =>
      obtain ⟨k', v'⟩ := kv
      by_cases h : k' = k
      · subst h; simpa [List.filter_cons] using ih
      · simpa [List.filter_cons, assocFind, h] using ih

/-- C4: a decoded `update` or `removeKey` command whose row list has length
other than one is rejected with the arity error and touches neither the
key-value store nor the cache; a command with exactly one row proceeds
into the write transaction: missing bucket yields `bucketNotFound` with
nothing touched, and an existing bucket gets the write or delete applied
(lookup of the key then yields the new value, resp. nothing) with the key
removed from the cache. -/
theorem claim4_row_arity (s : Store) (d : DatabaseSub) :
    (d.batch.length ≠ 1 →
      fsmApplyUpdate s d = (.error (.updateArity d.batch.length), s) ∧
      fsmApplyRemoveKey s d = (.error (.deleteArity d.batch.length), s)) ∧
    (∀ row, d.batch = [row] →
      (assocFind s.db row.Bucket = none →
        fsmApplyUpdate s d = (.error .bucketNotFound, s) ∧
        fsmApplyRemoveKey s d = (.error .bucketNotFound, s)) ∧
      (∀ entries, assocFind s.db row.Bucket = some entries →
        (row.Key ≠ "" →
          fsmApplyUpdate s d =
            (.ok (), { s with
              db := dbSetBucket s.db row.Bucket (listSet entries row.Key row.Value),
              cache := (s.cache.Remove row.Bucket row.Key).1 }) ∧
          assocFind (listSet entries row.Key row.Value) row.Key = some row.Value) ∧
        (fsmApplyRemoveKey s d =
            (.ok (), { s with
              db := dbSetBucket s.db row.Bucket (entries.filter (fun kv => kv.1 ≠ row.Key)),
              cache := (s.cache.Remove row.Bucket row.Key).1 }) ∧
          assocFind (entries.filter (fun kv => kv.1 ≠ row.Key)) row.Key = none))) := by
  constructor
  · intro hlen
    rcases hb : d.batch with _ | ⟨row, _ | ⟨r2, t⟩⟩
    · constructor <;> simp [fsmApplyUpdate, fsmApplyRemoveKey, hb]
    · rw [hb] at hlen; simp at hlen
    · constructor <;> simp [fsmApplyUpdate, fsmApplyRemoveKey, hb]
  · intro row hrow
    constructor
    · intro hbnone
      constructor <;> simp [fsmApplyUpdate, fsmApplyRemoveKey, hrow, hbnone]
    · intro entries hbsome
      refine ⟨fun hkey => ⟨?_, assocFind_listSet entries row.Key row.Value⟩,
        ?_, assocFind_filter_ne entries row.Key⟩
      · simp [fsmApplyUpdate, hrow, hbsome, hkey]
      · simp [fsmApplyRemoveKey, hrow, hbsome]

theorem claim4_witness :
    fsmApplyUpdate leaderStore { batch := [⟨"b", "k1", "v1"⟩, ⟨"b", "k2", "v2"⟩] }
      = (.error (.updateArity 2), leaderStore) ∧
    fsmApplyRemoveKey leaderStore { batch := [⟨"b", "k1", "v1"⟩, ⟨"b", "k2", "v2"⟩] }
      = (.error (.deleteArity 2), leaderStore) := by
  have h := (claim4_row_arity leaderStore
    { batch := [⟨"b", "k1", "v1"⟩, ⟨"b", "k2", "v2"⟩] }).1 (by decide)
  exact ⟨h.1, h.2⟩

theorem enumCheck_false_iff (xs : List Nat) :
    ∀ i, enumCheck i xs = false ↔ xs = List.range' i xs.length := by
  induction xs with
  | nil => intro i; simp [enumCheck]
  | cons x t ih =>
      intro i
      simp only [enumCheck, List.length_cons, List.range'_succ]
      by_cases h : i = x
      · subst h
        simp [ih (i + 1)]
      · rw [if_pos h]
        simp only [Bool.true_eq_false, false_iff]
        intro he
        injection he with h1 h2
        exact h h1.symm

theorem invalidOrder_eq_false_iff (order : List Nat) :
    invalidOrder order = false ↔ order.Perm (List.range order.length) := by
  unfold invalidOrder
  rw [enumCheck_false_iff, List.length_mergeSort,
    show List.range' 0 order.length = List.range order.length from
      (List.range_eq_range' _).symm]
  constructor
  · intro h
    have hp := List.mergeSort_perm order (fun a b => decide (a ≤ b))
    rw [h] at hp
    exact hp.symm
  · intro h
    have htrans : ∀ a b c : Nat,
        (fun a b => decide (a ≤ b)) a b → (fun a b => decide (a ≤ b)) b c →
        (fun a b => decide (a ≤ b)) a c := by
      intro a b c hab hbc
      simp only [decide_eq_true_eq] at *
      omega
    have htotal : ∀ a b : Nat,
        ((fun a b => decide (a ≤ b)) a b || (fun a b => decide (a ≤ b)) b a) = true := by
      intro a b
      simpa using Nat.le_total a b
    have hs1 : List.Sorted (· ≤ ·) (order.mergeSort (fun a b => decide (a ≤ b))) := by
      have hp := List.sorted_mergeSort htrans htotal order
      exact hp.imp (fun hle => by simpa using hle)
    have hs2 : List.Sorted (· ≤ ·) (List.range order.length) := List.sorted_le_range _
    exact List.eq_of_perm_of_sorted ((List.mergeSort_perm order _).trans h) hs1 hs2

theorem reorderPanel_invalid (dashboards : List Dashboard) (dIndex : Nat)
    (newOrder : List Nat)
    (h : dashboards.length = 0 ∨ dashboards.length ≤ dIndex) :
    Tree.ReorderPanel dashboards dIndex newOrder
      = DashOutcome.fail DashboardErr.invalidParam := by
  unfold Tree.ReorderPanel
  rw [if_pos h]

theorem reorderPanel_badLength (dashboards : List Dashboard) (dIndex : Nat)
    (newOrder : List Nat)
    (h1 : ¬(dashboards.length = 0 ∨ dashboards.length ≤ dIndex))
    (h2 : (dashboards.getD dIndex default).Panels.length ≠ newOrder.length) :
    Tree.ReorderPanel dashboards dIndex newOrder
      = DashOutcome.fail DashboardErr.orderLengthInvalid := by
  unfold Tree.ReorderPanel
  rw [if_neg h1]
  dsimp only
  rw [if_pos h2]

theorem reorderPanel_badOrder (dashboards : List Dashboard) (dIndex : Nat)
    (newOrder : List Nat)
    (h1 : ¬(dashboards.length = 0 ∨ dashboards.length ≤ dIndex))
    (h2 : (dashboards.getD dIndex default).Panels.length = newOrder.length)
    (h3 : invalidOrder newOrder = true) :
    Tree.ReorderPanel dashboards dIndex newOrder
      = DashOutcome.fail DashboardErr.orderInvalid := by
  unfold Tree.ReorderPanel
  rw [if_neg h1]
  dsimp only
  rw [if_neg (fun hne => hne h2), if_pos h3]

theorem reorderPanel_write (dashboards : List Dashboard) (dIndex : Nat)
    (newOrder : List Nat)
    (h1 : ¬(dashboards.length = 0 ∨ dashboards.length ≤ dIndex))
    (h2 : (dashboards.getD dIndex default).Panels.length = newOrder.length)
    (h3 : invalidOrder newOrder = false) :
    Tree.ReorderPanel dashboards dIndex newOrder
      = DashOutcome.write (dashboards.set dIndex
          { dashboards.getD dIndex default with
            Panels := newOrder.map
              (fun o => (dashboards.getD dIndex default).Panels.getD o default) }) := by
  unfold Tree.ReorderPanel
  rw [if_neg h1]
  dsimp only
  rw [if_neg (fun hne => hne h2),
    if_neg (show ¬invalidOrder newOrder = true by simp [h3])]

/-- C8: `ReorderPanel` succeeds exactly when the dashboard index is valid
and the new order is a permutation of 0..n-1 for n the panel count (its
sorted form is the identity); in that case it writes back the dashboards
with panel `i` replaced by the old panel at `newOrder[i]`, and otherwise
it returns an error without writing. -/
theorem claim8_reorder (dashboards : List Dashboard) (dIndex : Nat)
    (newOrder : List Nat) :
    ((∃ ds, Tree.ReorderPanel dashboards dIndex newOrder = .write ds) ↔
      (dIndex < dashboards.length ∧
        newOrder.Perm (List.range (dashboards.getD dIndex default).Panels.length))) ∧
    ((dIndex < dashboards.length ∧
        newOrder.Perm (List.range (dashboards.getD dIndex default).Panels.length)) →
      Tree.ReorderPanel dashboards dIndex newOrder = .write (dashboards.set dIndex
        { dashboards.getD dIndex default with
          Panels := newOrder.map
            (fun o => (dashboards.getD dIndex default).Panels.getD o default) }) ∧
      ∀ i, i < newOrder.length →
        (newOrder.map
            (fun o => (dashboards.getD dIndex default).Panels.getD o default))[i]?
          = (dashboards.getD dIndex default).Panels[newOrder.getD i 0]?) ∧
    (¬(dIndex < dashboards.length ∧
        newOrder.Perm (List.range (dashboards.getD dIndex default).Panels.length)) →
      ∃ e, Tree.ReorderPanel dashboards dIndex newOrder = .fail e) := by
  by_cases hA : dashboards.length = 0 ∨ dashboards.length ≤ dIndex
  · have hv : ¬(dIndex < dashboards.length ∧
        newOrder.Perm (List.range (dashboards.getD dIndex default).Panels.length)) := by
      rintro ⟨hdlt, -⟩
      rcases hA with h0 | hle <;> omega
    refine ⟨⟨fun ⟨ds, hds⟩ => ?_, fun h => absurd h hv⟩,
      fun h => absurd h hv,
      fun _ => ⟨.invalidParam, reorderPanel_invalid _ _ _ hA⟩⟩
    rw [reorderPanel_invalid _ _ _ hA] at hds
    cases hds
  · have hdlt : dIndex < dashboards.length := by
      push_neg at hA
      omega
    by_cases hB : (dashboards.getD dIndex default).Panels.length = newOrder.length
    · by_cases hC : invalidOrder newOrder = false
      · have hperm : newOrder.Perm
            (List.range (dashboards.getD dIndex default).Panels.length) := by
          rw [hB]
          exact (invalidOrder_eq_false_iff newOrder).mp hC
        have hwrite := reorderPanel_write dashboards dIndex newOrder hA hB hC
        refine ⟨⟨fun _ => ⟨hdlt, hperm⟩, fun _ => ⟨_, hwrite⟩⟩,
          fun _ => ⟨hwrite, fun i hi => ?_⟩, fun h => absurd ⟨hdlt, hperm⟩ h⟩
        have ho : newOrder[i]? = some newOrder[i] := List.getElem?_eq_getElem hi
        have hoD : newOrder.getD i 0 = newOrder[i] := by
          rw [List.getD_eq_getElem?_getD, ho]
          rfl
        have hlt : newOrder[i] < (dashboards.getD dIndex default).Panels.length := by
          have hmem := hperm.mem_iff.mp (List.getElem_mem hi)
          simpa [List.mem_range] using hmem
        rw [List.getElem?_map, ho, hoD, List.getElem?_eq_getElem hlt,
          Option.map_some']
        rw [List.getD_eq_getElem?_getD, List.getElem?_eq_getElem hlt,
          Option.getD_some]
      · have hCt : invalidOrder newOrder = true := by
          cases hio : invalidOrder newOrder
          · exact absurd hio hC
          · rfl
        have hv : ¬(dIndex < dashboards.length ∧
            newOrder.Perm (List.range (dashboards.getD dIndex default).Panels.length)) := by
          rintro ⟨-, hpm⟩
          rw [hB] at hpm
          exact hC ((invalidOrder_eq_false_iff newOrder).mpr hpm)
        refine ⟨⟨fun ⟨ds, hds⟩ => ?_, fun h => absurd h hv⟩,
          fun h => absurd h hv,
          fun _ => ⟨.orderInvalid, reorderPanel_badOrder _ _ _ hA hB hCt⟩⟩
        rw [reorderPanel_badOrder _ _ _ hA hB hCt] at hds
        cases hds
    · have hv : ¬(dIndex < dashboards.length ∧
          newOrder.Perm (List.range (dashboards.getD dIndex default).Panels.length)) := by
        rintro ⟨-, hpm⟩
        exact hB (by simpa using hpm.length_eq.symm)
      refine ⟨⟨fun ⟨ds, hds⟩ => ?_, fun h => absurd h hv⟩,
        fun h => absurd h hv,
        fun _ => ⟨.orderLengthInvalid, reorderPanel_badLength _ _ _ hA hB⟩⟩
      rw [reorderPanel_badLength _ _ _ hA hB] at hds
      cases hds

theorem claim8_witness :
    Tree.ReorderPanel sampleDashboards 0 [1, 0]
      = DashOutcome.write
          [{ Title := "d", Panels := [{ Title := "p1" }, { Title := "p0" }] }] := by
  have hperm : ([1, 0] : List Nat).Perm
      (List.range (sampleDashboards.getD 0 default).Panels.length) :=
    List.isPerm_iff.mp (by decide)
  have h := ((claim8_reorder sampleDashboards 0 [1, 0]).2.1 ⟨by decide, hperm⟩).1
  exact h.trans (by decide)

/-- C3: `Add(bucket, key, value)` returns true exactly when a new entry was
accounted and the budget is positive and exceeded; a resident (bucket, key)
gets its value replaced and is moved to the front, with `size` and `count`
untouched (no re-accounting), returning false with no callback; a new entry
is pushed at the front and accounted, and when the budget is exceeded
exactly the back entry is evicted (one callback) and the call returns
true. -/
theorem claim3_add_spec (c : Cache) (b k v : Bytes) :
    ((c.Add b k v).2.1 = true ↔
      c.findEntry b k = none ∧ 0 < c.maxSize ∧
        c.maxSize < addU64 c.size (Entry.Size ⟨b, k, v⟩)) ∧
    (∀ e, c.findEntry b k = some e →
      c.Add b k v = ({ c with evictList :=
          (⟨b, k, v⟩ : Entry) :: c.evictList.eraseP (entMatches b k) }, false, [])) ∧
    (c.findEntry b k = none →
      ¬(0 < c.maxSize ∧ c.maxSize < addU64 c.size (Entry.Size ⟨b, k, v⟩)) →
      c.Add b k v = ({ c with
          evictList := (⟨b, k, v⟩ : Entry) :: c.evictList,
          size := addU64 c.size (Entry.Size ⟨b, k, v⟩),
          count := c.count + 1 }, false, [])) ∧
    (c.findEntry b k = none →
      0 < c.maxSize → c.maxSize < addU64 c.size (Entry.Size ⟨b, k, v⟩) →
      ∀ old, ((⟨b, k, v⟩ : Entry) :: c.evictList).getLast? = some old →
      c.Add b k v = ({ c with
          evictList := ((⟨b, k, v⟩ : Entry) :: c.evictList).dropLast,
          size := subU64 (addU64 c.size (Entry.Size ⟨b, k, v⟩)) old.Size,
          count := c.count + 1 - 1 }, true, [old])) := by
  refine ⟨?_, ?_, ?_, ?_⟩
  · cases hf : c.evictList.find? (entMatches b k) with
    | some e => simp [Cache.Add, Cache.findEntry, hf]
    | none =>
        by_cases he : 0 < c.maxSize ∧ c.maxSize < addU64 c.size (Entry.Size ⟨b, k, v⟩)
        · simp [Cache.Add, Cache.findEntry, hf, he]
        · simp [Cache.Add, Cache.findEntry, hf, he]
  · intro e hf
    have hf' : c.evictList.find? (entMatches b k) = some e := hf
    obtain ⟨hbk, hkk⟩ := entMatches_of_find? hf'
    simp only [Cache.Add, hf']
    rw [show ({ e with value := v } : Entry) = (⟨b, k, v⟩ : Entry) by
      cases e; simp_all]
  · intro hf he
    have hf' : c.evictList.find? (entMatches b k) = none := hf
    simp [Cache.Add, hf', he]
  · intro hf h1 h2 old hold
    have hf' : c.evictList.find? (entMatches b k) = none := hf
    simp only [Cache.Add, hf']
    rw [if_pos ⟨h1, h2⟩]
    unfold Cache.removeOldest
    rw [hold]

theorem claim3_witness :
    ((((NewCache 7).Add "b" "k1" "v1").1).Add "b" "k2" "vvvvvvvvvv").2.1 = true :=
  (claim3_add_spec (((NewCache 7).Add "b" "k1" "v1").1) "b" "k2" "vvvvvvvvvv").1.mpr
    ⟨by decide, by decide, by decide⟩

end Registry
